import Mathlib

/-!
# Verification of the WordsExample pipeline (src/examples.py)

Shallow embedding of the script classifier, corpus selector, retrieval
orchestrator, ranking/truncation and presenter of `examples.py`, together
with theorems settling the spec claims.

Machine model: Python strings are Lean `String`s (lists of Unicode
characters); character codes (`ord`) are `Char.toNat`.  `str.lower` and
`str.isalpha` are modelled on the character fragment the program works
with (ASCII letters, Cyrillic letters including Ё/ё, digits, punctuation,
spaces); characters outside the modelled fragment behave as non-letters.
-/

/-- Model of Python `ord(symbol.lower())` for one character: ASCII `A`-`Z`
and Cyrillic `А`-`Я` shift their code by 32, `Ё` (1025) maps to `ё`
(1105), every other character keeps its own code. -/
def pyLowerCode (c : Char) : Nat :=
  if 65 ≤ c.toNat ∧ c.toNat ≤ 90 then c.toNat + 32
  else if 1040 ≤ c.toNat ∧ c.toNat ≤ 1071 then c.toNat + 32
  else if c.toNat = 1025 then 1105
  else c.toNat

/-- Model of Python `str.isalpha` restricted to one character, over the
fragment relevant to the program: ASCII letters and Cyrillic letters
(`А`-`я` block 1040-1103 plus `Ё` 1025 and `ё` 1105).  Digits, punctuation
and spaces are not alphabetic. -/
def pyIsAlpha (c : Char) : Bool :=
  (97 ≤ c.toNat && c.toNat ≤ 122) || (65 ≤ c.toNat && c.toNat ≤ 90) ||
  (1040 ≤ c.toNat && c.toNat ≤ 1103) || c.toNat == 1025 || c.toNat == 1105

/-- `LEFT_RUS_BORDER, RIGHT_RUS_BORDER = ord('а'), ord('я')` (examples.py line 9). -/
def LEFT_RUS_BORDER : Int := (Char.toNat 'а' : Int)

def RIGHT_RUS_BORDER : Int := (Char.toNat 'я' : Int)

/-- `LEFT_ENG_BORDER, RIGHT_ENG_BORDER = ord('a'), ord('z')` (examples.py line 10). -/
def LEFT_ENG_BORDER : Int := (Char.toNat 'a' : Int)

def RIGHT_ENG_BORDER : Int := (Char.toNat 'z' : Int)

/-- Value one character contributes to the generator inside
`min_letter_index`: `ord(symbol.lower()) if symbol.isalpha() else 2_000`. -/
def letterMinVal (c : Char) : Int :=
  if pyIsAlpha c then (pyLowerCode c : Int) else 2000

/-- Value one character contributes to the generator inside
`max_letter_index`: `ord(symbol.lower()) if symbol.isalpha() else -1`. -/
def letterMaxVal (c : Char) : Int :=
  if pyIsAlpha c then (pyLowerCode c : Int) else -1

/-- `min_letter_index` (examples.py lines 104-116): `-1` on the empty
string, otherwise Python `min` of `letterMinVal` over the characters. -/
def min_letter_index (s : String) : Int :=
  match s.data with
  | [] => -1
  | c :: cs => (cs.map letterMinVal).foldl min (letterMinVal c)

/-- `max_letter_index` (examples.py lines 119-131): `-1` on the empty
string, otherwise Python `max` of `letterMaxVal` over the characters. -/
def max_letter_index (s : String) : Int :=
  match s.data with
  | [] => -1
  | c :: cs => (cs.map letterMaxVal).foldl max (letterMaxVal c)

/-- `is_russian` (examples.py lines 134-139). -/
def is_russian (s : String) : Bool :=
  decide (LEFT_RUS_BORDER ≤ min_letter_index s) &&
  decide (max_letter_index s ≤ RIGHT_RUS_BORDER)

/-- `is_english` (examples.py lines 142-147). -/
def is_english (s : String) : Bool :=
  decide (LEFT_ENG_BORDER ≤ min_letter_index s) &&
  decide (max_letter_index s ≤ RIGHT_ENG_BORDER)

/-- The two corpus variants `FUNC` maps to: `'main' ↦ get_russian`,
`'parallel' ↦ get_parallel` (examples.py lines 150-153).  We track which
variant is chosen rather than the function object itself. -/
inductive Variant where
  | main
  | parallel
deriving DecidableEq

/-- The corpus-selection logic of `main` (examples.py lines 228-234):
`func = FUNC.get(args.corpus, None)` (an explicit `-c` choice, or `None`),
then `if is_english(word): func = FUNC['parallel']`, then
`func = func or FUNC['main']`.  Both dictionary values are function
objects, hence truthy, so `func or FUNC['main']` resolves to `func`
exactly when `func` is not `None`. -/
def select_variant (explicit : Option Variant) (word : String) : Variant :=
  let func := explicit
  let func := if is_english word then some Variant.parallel else func
  func.getD Variant.main

/-- The parameters `get` (examples.py lines 13-35) passes to the corpus
constructor: `corp = corpus(word, pages, dpp=5, sort='random', **kwargs)`. -/
structure FetchParams where
  word : String
  pages : Nat
  dpp : Nat
  sort : String
deriving DecidableEq

/-- The parameter computation of `get` (examples.py lines 32-33):
`pages = count // 10 or 1` — Python `x or 1` yields `x` unless `x` is
falsy (`0`) — then `corpus(word, pages, dpp=5, sort='random', **kwargs)`. -/
def get_fetch_params (word : String) (count : Nat) : FetchParams :=
  let pages := if count / 10 == 0 then 1 else count / 10
  { word := word, pages := pages, dpp := 5, sort := "random" }

/-- Python exceptions relevant to `get_examples`: `ValueError` (the
"invalid request" signal) and any other exception class. -/
inductive PyErr where
  | valueError
  | other (msg : String)
deriving DecidableEq

/-- The fetch phase of `get_examples` (examples.py lines 85-88):
`try: corp = func(word, count, **kwargs) except ValueError:
corp = func(word, 1, **kwargs)`.  `func` abstracts the corpus fetch with
`word` and `**kwargs` already applied, so its only remaining argument is
`count`; the second call therefore passes every other argument unchanged.
The retry is not itself guarded by a handler, so its failure propagates. -/
def fetch_with_retry {α : Type} (func : Nat → Except PyErr α) (count : Nat) :
    Except PyErr α :=
  match func count with
  | Except.ok c => Except.ok c
  | Except.error e => if e = PyErr.valueError then func 1 else Except.error e

/-- A result record, polymorphic over the two corpus variants
(examples.py lines 90-101): an `rnc.MainCorpus` example exposes `txt`
(one string) and `src`; an `rnc.ParallelExample` exposes `txt` (a mapping
from language code to text, modelled as an association list in insertion
order), the Russian side `ru`, and `src`. -/
inductive ResultRecord where
  | simple (txt : String) (src : String)
  | aligned (txt : List (String × String)) (ru : String) (src : String)
deriving DecidableEq

/-- The `src` attribute, common to both record variants. -/
def ResultRecord.src : ResultRecord → String
  | ResultRecord.simple _ s => s
  | ResultRecord.aligned _ _ s => s

/-- The sort key of `get_examples` (examples.py lines 90-93):
`len(example.txt)` for a `MainCorpus` example, `len(example.ru)` for a
`ParallelCorpus` example.  The `isinstance` branch selects one lambda per
corpus, which on the homogeneous collections the client returns is the
variant-appropriate key of each record. -/
def sortKey : ResultRecord → Nat
  | ResultRecord.simple txt _ => txt.length
  | ResultRecord.aligned _ ru _ => ru.length

/-- The ranking-and-truncation phase of `get_examples` (examples.py lines
90-95): `corp.sort_data(key=...)` — Python sorts are stable and ascending
by key, which is exactly stable `mergeSort` — followed by the slice
`corp[:count]`. -/
def rank_and_truncate (coll : List ResultRecord) (count : Nat) :
    List ResultRecord :=
  (coll.mergeSort (fun a b => decide (sortKey a ≤ sortKey b))).take count

/-- The chunks of standard output produced by the body of the print loop
of `get_examples` (examples.py lines 95-101) for one record: `print(x)`
emits `x` followed by one newline, `print(x, end='\n\n')` emits `x`
followed by two newlines. -/
def print_chunks (ex : ResultRecord) : List String :=
  (match ex with
   | ResultRecord.aligned pairs _ _ =>
       pairs.map (fun p => p.1 ++ ": " ++ p.2 ++ "\n")
   | ResultRecord.simple txt _ => ["txt: " ++ txt ++ "\n"]) ++
  ["src: " ++ ex.src ++ "\n\n"]

/-- Standard output produced for one record: the concatenation of its
print chunks in program order. -/
def present_record (ex : ResultRecord) : String :=
  String.join (print_chunks ex)

/-- The lines claim C9 says the presenter emits for one record, stated in
the spec's own terms: per-language lines or a single `txt:` line, then a
`src:` line, then one blank separator line. -/
def claimed_lines : ResultRecord → List String
  | ResultRecord.simple txt src => ["txt: " ++ txt, "src: " ++ src, ""]
  | ResultRecord.aligned pairs _ src =>
      pairs.map (fun p => p.1 ++ ": " ++ p.2) ++ ["src: " ++ src, ""]

/-- Modelled from the spec: claim C4 quantifies over "letters of the
target (Russian) alphabet".  The Russian alphabet has 33 letters,
а through я plus ё; with their uppercase forms that is 66 characters. -/
def russian_alphabet : List Char :=
  "абвгдеёжзийклмнопрстуфхцчшщъыьэюяАБВГДЕЁЖЗИЙКЛМНОПРСТУФХЦЧШЩЪЫЬЭЮЯ".data

/-- A fetch that fails with `ValueError` for every count except 1. -/
def retry_demo_fetch : Nat → Except PyErr Nat :=
  fun n => if n = 1 then Except.ok 7 else Except.error PyErr.valueError

/-! ## Helper lemmas about the classifier -/

theorem le_foldl_min_iff (k : Int) (xs : List Int) :
    ∀ a : Int, k ≤ xs.foldl min a ↔ k ≤ a ∧ ∀ x ∈ xs, k ≤ x := by
  induction xs with
  | nil => intro a; simp
  | cons x xs ih =>
    intro a
    rw [List.foldl_cons, ih (min a x)]
    simp only [le_min_iff, List.mem_cons]
    constructor
    · rintro ⟨⟨ha, hx⟩, hxs⟩
      exact ⟨ha, fun y hy => hy.elim (fun h => h ▸ hx) (hxs y)⟩
    · rintro ⟨ha, h⟩
      exact ⟨⟨ha, h x (Or.inl rfl)⟩, fun y hy => h y (Or.inr hy)⟩

theorem foldl_max_le_iff (k : Int) (xs : List Int) :
    ∀ a : Int, xs.foldl max a ≤ k ↔ a ≤ k ∧ ∀ x ∈ xs, x ≤ k := by
  induction xs with
  | nil => intro a; simp
  | cons x xs ih =>
    intro a
    rw [List.foldl_cons, ih (max a x)]
    simp only [max_le_iff, List.mem_cons]
    constructor
    · rintro ⟨⟨ha, hx⟩, hxs⟩
      exact ⟨ha, fun y hy => hy.elim (fun h => h ▸ hx) (hxs y)⟩
    · rintro ⟨ha, h⟩
      exact ⟨⟨ha, h x (Or.inl rfl)⟩, fun y hy => h y (Or.inr hy)⟩

theorem le_min_letter_index_iff (s : String) (c : Char) (cs : List Char)
    (hd : s.data = c :: cs) (k : Int) :
    k ≤ min_letter_index s ↔ ∀ x ∈ s.data, k ≤ letterMinVal x := by
  simp only [min_letter_index, hd, le_foldl_min_iff, List.mem_map,
    List.mem_cons]
  constructor
  · rintro ⟨hc, h⟩
    rintro x (rfl | hx)
    · exact hc
    · exact h _ ⟨x, hx, rfl⟩
  · rintro h
    exact ⟨h c (Or.inl rfl), by rintro y ⟨x, hx, rfl⟩; exact h x (Or.inr hx)⟩

theorem max_letter_index_le_iff (s : String) (c : Char) (cs : List Char)
    (hd : s.data = c :: cs) (k : Int) :
    max_letter_index s ≤ k ↔ ∀ x ∈ s.data, letterMaxVal x ≤ k := by
  simp only [max_letter_index, hd, foldl_max_le_iff, List.mem_map,
    List.mem_cons]
  constructor
  · rintro ⟨hc, h⟩
    rintro x (rfl | hx)
    · exact hc
    · exact h _ ⟨x, hx, rfl⟩
  · rintro h
    exact ⟨h c (Or.inl rfl), by rintro y ⟨x, hx, rfl⟩; exact h x (Or.inr hx)⟩

/-- On a non-empty string, `is_russian` holds iff every alphabetic
character's lowered code lies within the Russian borders: the sentinel
`2000` always passes the `min` side and `-1` always passes the `max`
side. -/
theorem is_russian_char_iff (s : String) (c : Char) (cs : List Char)
    (hd : s.data = c :: cs) :
    is_russian s = true ↔
      ∀ x ∈ s.data, pyIsAlpha x = true →
        LEFT_RUS_BORDER ≤ (pyLowerCode x : Int) ∧
        (pyLowerCode x : Int) ≤ RIGHT_RUS_BORDER := by
  rw [is_russian, Bool.and_eq_true, decide_eq_true_eq, decide_eq_true_eq,
    le_min_letter_index_iff s c cs hd, max_letter_index_le_iff s c cs hd]
  constructor
  · rintro ⟨hmin, hmax⟩ x hx ha
    have h1 := hmin x hx
    have h2 := hmax x hx
    rw [letterMinVal, if_pos ha] at h1
    rw [letterMaxVal, if_pos ha] at h2
    exact ⟨h1, h2⟩
  · rintro h
    constructor
    · intro x hx
      rw [letterMinVal]
      by_cases ha : pyIsAlpha x = true
      · rw [if_pos ha]; exact (h x hx ha).1
      · rw [if_neg ha]; rw [LEFT_RUS_BORDER]; decide
    · intro x hx
      rw [letterMaxVal]
      by_cases ha : pyIsAlpha x = true
      · rw [if_pos ha]; exact (h x hx ha).2
      · rw [if_neg ha]; rw [RIGHT_RUS_BORDER]; decide

/-- On a non-empty string, `is_english` holds iff every alphabetic
character's lowered code lies within the English borders. -/
theorem is_english_char_iff (s : String) (c : Char) (cs : List Char)
    (hd : s.data = c :: cs) :
    is_english s = true ↔
      ∀ x ∈ s.data, pyIsAlpha x = true →
        LEFT_ENG_BORDER ≤ (pyLowerCode x : Int) ∧
        (pyLowerCode x : Int) ≤ RIGHT_ENG_BORDER := by
  rw [is_english, Bool.and_eq_true, decide_eq_true_eq, decide_eq_true_eq,
    le_min_letter_index_iff s c cs hd, max_letter_index_le_iff s c cs hd]
  constructor
  · rintro ⟨hmin, hmax⟩ x hx ha
    have h1 := hmin x hx
    have h2 := hmax x hx
    rw [letterMinVal, if_pos ha] at h1
    rw [letterMaxVal, if_pos ha] at h2
    exact ⟨h1, h2⟩
  · rintro h
    constructor
    · intro x hx
      rw [letterMinVal]
      by_cases ha : pyIsAlpha x = true
      · rw [if_pos ha]; exact (h x hx ha).1
      · rw [if_neg ha]; rw [LEFT_ENG_BORDER]; decide
    · intro x hx
      rw [letterMaxVal]
      by_cases ha : pyIsAlpha x = true
      · rw [if_pos ha]; exact (h x hx ha).2
      · rw [if_neg ha]; rw [RIGHT_ENG_BORDER]; decide

/-- Any character inside the code range `ord('А')..ord('я')` (1040-1103)
is alphabetic and its lowered code falls inside the Russian borders. -/
theorem rus_range_char (c : Char) (h1 : 1040 ≤ c.toNat) (h2 : c.toNat ≤ 1103) :
    pyIsAlpha c = true ∧
    1072 ≤ pyLowerCode c ∧ pyLowerCode c ≤ 1103 := by
  refine ⟨?_, ?_⟩
  · simp only [pyIsAlpha, Bool.or_eq_true, Bool.and_eq_true,
      decide_eq_true_eq, beq_iff_eq]
    omega
  · rw [pyLowerCode]
    split_ifs <;> omega

/-! ## Claim C1 — explicit corpus choice -/

/-- Claim C1 is false on the code: for the word "house", which classifies
as English, an explicit 'main' corpus choice is not honored — `main`
overwrites `func` with `FUNC['parallel']` whenever `is_english(word)`
holds, after the explicit choice was looked up. -/
theorem explicit_main_overridden_for_english :
    is_english "house" = true ∧
    select_variant (some Variant.main) "house" = Variant.parallel := by
  constructor
  · decide
  · decide

/-- Amended claim C1: an explicit 'parallel' choice is always honored, but
an explicit 'main' choice is honored only when the word does not classify
as English; when `is_english(word)` holds, the parallel corpus is selected
regardless of the explicit choice. -/
theorem select_variant_explicit_amended (v : Variant) (w : String) :
    select_variant (some v) w =
      if is_english w then Variant.parallel else v := by
  rw [select_variant]
  by_cases h : is_english w = true
  · simp [h]
  · rw [Bool.not_eq_true] at h
    simp [h]

/-! ## Claim C2 — over-fetch margin -/

/-- Claim C2 is false on the code at the default `count = 10` (and all
counts above 5): `get` requests `pages * dpp = max(1, 10 // 10) * 5 = 5`
raw records, fewer than the 10 requested, contradicting its own docstring
"There are >= count of examples than requested". -/
theorem underfetch_at_default_count :
    (get_fetch_params "дом" 10).pages = 1 ∧
    (get_fetch_params "дом" 10).dpp = 5 ∧
    (get_fetch_params "дом" 10).pages * (get_fetch_params "дом" 10).dpp < 10 := by
  refine ⟨rfl, rfl, by decide⟩

/-! ## Claim C3 — strings with no letters -/

/-- Claim C3 is false on the code: "123" contains no alphabetic character,
yet both classifiers return `True`, because the sentinel values (`2000` on
the `min` side, `-1` on the `max` side) satisfy both border checks. -/
theorem no_letter_string_classified_russian_and_english :
    (("123").data.all (fun c => !(pyIsAlpha c))) = true ∧
    is_russian "123" = true ∧ is_english "123" = true := by
  refine ⟨by decide, by decide, by decide⟩

/-- Amended claim C3: the empty string yields `False` from both
classifiers, but every non-empty string with no alphabetic character
yields `True` from both: the sentinels `2000` (min side) and `-1` (max
side) dominate the bounds and pass both border checks. -/
theorem no_letter_classification_amended :
    (is_russian "" = false ∧ is_english "" = false) ∧
    ∀ s : String, s.data ≠ [] → (∀ c ∈ s.data, pyIsAlpha c = false) →
      is_russian s = true ∧ is_english s = true := by
  refine ⟨⟨by decide, by decide⟩, ?_⟩
  intro s hs hna
  obtain ⟨c, cs, hd⟩ := List.exists_cons_of_ne_nil hs
  constructor
  · rw [is_russian_char_iff s c cs hd]
    intro x hx ha
    rw [hna x hx] at ha
    exact absurd ha (by decide)
  · rw [is_english_char_iff s c cs hd]
    intro x hx ha
    rw [hna x hx] at ha
    exact absurd ha (by decide)

/-- Witness for the amended C3 at the concrete input "?!-42". -/
theorem no_letter_classification_amended_witness :
    is_russian "?!-42" = true ∧ is_english "?!-42" = true :=
  no_letter_classification_amended.2 "?!-42" (by decide) (by decide)

/-! ## Claim C4 — strings drawn from the Russian alphabet -/

/-- Claim C4 is false on the code: "ё" is a non-empty string consisting
entirely of Russian-alphabet letters, yet `is_russian` returns `False`,
because `ord('ё') = 1105` lies outside the border range
`ord('а')..ord('я') = 1072..1103`. -/
theorem russian_letter_yo_not_russian :
    (("ё").data ≠ []) ∧
    (∀ c ∈ ("ё").data, c ∈ russian_alphabet) ∧
    is_russian "ё" = false := by
  refine ⟨by decide, by decide, by decide⟩

/-- Amended claim C4: every non-empty string whose characters all lie in
the contiguous code range `ord('А')..ord('я')` (1040-1103) — i.e. the 32
letters а-я in either case, which excludes ё/Ё — classifies as Russian. -/
theorem russian_range_strings_are_russian (s : String)
    (hs : s.data ≠ [])
    (hr : ∀ c ∈ s.data, 1040 ≤ c.toNat ∧ c.toNat ≤ 1103) :
    is_russian s = true := by
  obtain ⟨c, cs, hd⟩ := List.exists_cons_of_ne_nil hs
  rw [is_russian_char_iff s c cs hd]
  intro x hx _
  obtain ⟨h1, h2⟩ := hr x hx
  obtain ⟨_, hlo, hhi⟩ := rus_range_char x h1 h2
  have hL : LEFT_RUS_BORDER = (1072 : Int) := by decide
  have hR : RIGHT_RUS_BORDER = (1103 : Int) := by decide
  rw [hL, hR]
  omega

/-- Witness for the amended C4 at the mixed-case concrete input "Дом". -/
theorem russian_range_strings_witness : is_russian "Дом" = true :=
  russian_range_strings_are_russian "Дом" (by decide) (by decide)

/-! ## Claim C5 — retry policy on ValueError -/

/-- Claim C5, confirmed: in `get_examples`, if the fetch
`func(word, count, **kwargs)` raises `ValueError`, the orchestrator
retries exactly once as `func(word, 1, **kwargs)` — `func` here abstracts
the corpus fetch with `word` and `**kwargs` already applied, so every
argument other than the count is passed unchanged — and the outcome of
that single retry, success or failure, is returned as is: the retry sits
in the `except` block, outside any further handler.  With count forced
to 1 the page formula gives `pages = 1 // 10 or 1 = 1`. -/
theorem fetch_retry_once_with_count_one {α : Type}
    (func : Nat → Except PyErr α) (count : Nat)
    (hfail : func count = Except.error PyErr.valueError) :
    fetch_with_retry func count = func 1 ∧
    ∀ w : String, (get_fetch_params w 1).pages = 1 := by
  constructor
  · rw [fetch_with_retry, hfail]
    simp
  · intro w
    rfl

/-- Witness for C5: a first attempt with count 3 raises `ValueError` and
the orchestrator returns the result of the single retry with count 1. -/
theorem fetch_retry_once_witness :
    fetch_with_retry retry_demo_fetch 3 = retry_demo_fetch 1 ∧
    ∀ w : String, (get_fetch_params w 1).pages = 1 :=
  fetch_retry_once_with_count_one retry_demo_fetch 3 rfl

/-! ## Claim C6 — fetch parameter formula -/

/-- Claim C6, confirmed: for every count ≥ 1, `get` invokes the corpus
constructor with the searched word, `pages = count // 10 or 1`, which
equals `max(1, count // 10)`, `dpp = 5` and `sort = 'random'`. -/
theorem fetch_params_formula (w : String) (count : Nat) (hc : 1 ≤ count) :
    (get_fetch_params w count).pages = max 1 (count / 10) ∧
    (get_fetch_params w count).dpp = 5 ∧
    (get_fetch_params w count).sort = "random" ∧
    (get_fetch_params w count).word = w := by
  refine ⟨?_, rfl, rfl, rfl⟩
  rw [get_fetch_params]
  by_cases h : count / 10 = 0
  · simp [h]
  · simp only [beq_iff_eq, if_neg h]
    omega

/-- Witness for C6 at the spec's scenario input `count = 25`:
`pages = 2`, `dpp = 5`, `sort = "random"`. -/
theorem fetch_params_formula_witness :
    (get_fetch_params "дом" 25).pages = max 1 (25 / 10) ∧
    (get_fetch_params "дом" 25).dpp = 5 ∧
    (get_fetch_params "дом" 25).sort = "random" ∧
    (get_fetch_params "дом" 25).word = "дом" :=
  fetch_params_formula "дом" 25 (by decide)

/-! ## Claim C7 — ranking and truncation -/

/-- Claim C7, confirmed: for every collection and count ≥ 1, sorting by
the variant-appropriate length key and slicing `[:count]` yields a
sequence of length `min(count, len(collection))`, sorted ascending by the
key, that is a multiset-subsequence of the input; when the collection is
shorter than the count it is returned in full (as a permutation of the
whole input), with no padding and no error. -/
theorem rank_and_truncate_spec (coll : List ResultRecord) (count : Nat)
    (_hc : 1 ≤ count) :
    (rank_and_truncate coll count).length = min count coll.length ∧
    List.Pairwise (fun a b => sortKey a ≤ sortKey b)
      (rank_and_truncate coll count) ∧
    List.Subperm (rank_and_truncate coll count) coll ∧
    (coll.length ≤ count → List.Perm (rank_and_truncate coll count) coll) := by
  have hperm :=
    List.mergeSort_perm coll (fun a b => decide (sortKey a ≤ sortKey b))
  refine ⟨?_, ?_, ?_, ?_⟩
  · rw [rank_and_truncate, List.length_take, List.length_mergeSort]
  · have hs := @List.sorted_mergeSort ResultRecord
      (fun a b => decide (sortKey a ≤ sortKey b))
      (fun a b c hab hbc => by
        simp only [decide_eq_true_eq] at hab hbc ⊢
        exact Nat.le_trans hab hbc)
      (fun a b => by
        simp only [Bool.or_eq_true, decide_eq_true_eq]
        exact Nat.le_total _ _)
      coll
    have hsp : List.Pairwise (fun a b => sortKey a ≤ sortKey b)
        (coll.mergeSort (fun a b => decide (sortKey a ≤ sortKey b))) :=
      hs.imp (fun h => of_decide_eq_true h)
    exact List.Pairwise.sublist (List.take_sublist count _) hsp
  · exact ((List.take_sublist count _).subperm).trans hperm.subperm
  · intro hlen
    rw [rank_and_truncate, List.take_of_length_le]
    · exact hperm
    · rw [List.length_mergeSort]
      exact hlen

/-- Witness for C7: a two-record mixed collection with count 1. -/
theorem rank_and_truncate_spec_witness :
    (rank_and_truncate
        [ResultRecord.simple "aaa" "s1",
         ResultRecord.aligned [("en", "x")] "яя" "s2"] 1).length =
      min 1 ([ResultRecord.simple "aaa" "s1",
              ResultRecord.aligned [("en", "x")] "яя" "s2"] :
              List ResultRecord).length ∧
    List.Pairwise (fun a b => sortKey a ≤ sortKey b)
      (rank_and_truncate
        [ResultRecord.simple "aaa" "s1",
         ResultRecord.aligned [("en", "x")] "яя" "s2"] 1) ∧
    List.Subperm
      (rank_and_truncate
        [ResultRecord.simple "aaa" "s1",
         ResultRecord.aligned [("en", "x")] "яя" "s2"] 1)
      [ResultRecord.simple "aaa" "s1",
       ResultRecord.aligned [("en", "x")] "яя" "s2"] ∧
    (([ResultRecord.simple "aaa" "s1",
       ResultRecord.aligned [("en", "x")] "яя" "s2"] :
       List ResultRecord).length ≤ 1 →
      List.Perm
        (rank_and_truncate
          [ResultRecord.simple "aaa" "s1",
           ResultRecord.aligned [("en", "x")] "яя" "s2"] 1)
        [ResultRecord.simple "aaa" "s1",
         ResultRecord.aligned [("en", "x")] "яя" "s2"]) :=
  rank_and_truncate_spec
    [ResultRecord.simple "aaa" "s1",
     ResultRecord.aligned [("en", "x")] "яя" "s2"] 1 (by decide)

/-! ## Claim C8 — invariance under non-alphabetic characters -/

/-- On a non-empty string, `is_russian` depends only on the subsequence of
alphabetic characters. -/
theorem is_russian_filter_iff (s : String) (hs : s.data ≠ []) :
    is_russian s = true ↔
      ∀ x ∈ s.data.filter pyIsAlpha,
        LEFT_RUS_BORDER ≤ (pyLowerCode x : Int) ∧
        (pyLowerCode x : Int) ≤ RIGHT_RUS_BORDER := by
  obtain ⟨c, cs, hd⟩ := List.exists_cons_of_ne_nil hs
  rw [is_russian_char_iff s c cs hd]
  constructor
  · intro h x hx
    rw [List.mem_filter] at hx
    exact h x hx.1 hx.2
  · intro h x hx ha
    exact h x (List.mem_filter.mpr ⟨hx, ha⟩)

/-- On a non-empty string, `is_english` depends only on the subsequence of
alphabetic characters. -/
theorem is_english_filter_iff (s : String) (hs : s.data ≠ []) :
    is_english s = true ↔
      ∀ x ∈ s.data.filter pyIsAlpha,
        LEFT_ENG_BORDER ≤ (pyLowerCode x : Int) ∧
        (pyLowerCode x : Int) ≤ RIGHT_ENG_BORDER := by
  obtain ⟨c, cs, hd⟩ := List.exists_cons_of_ne_nil hs
  rw [is_english_char_iff s c cs hd]
  constructor
  · intro h x hx
    rw [List.mem_filter] at hx
    exact h x hx.1 hx.2
  · intro h x hx ha
    exact h x (List.mem_filter.mpr ⟨hx, ha⟩)

/-- Claim C8 is false on the code at the pair ("", "!"): the two strings
differ only by insertion of the non-alphabetic character '!', yet the
empty string classifies as neither script while "!" classifies as
Russian (and English) through the sentinel values. -/
theorem classification_not_invariant_empty_vs_punct :
    ("!").data.filter pyIsAlpha = ("").data.filter pyIsAlpha ∧
    is_russian "!" ≠ is_russian "" := by
  refine ⟨by decide, by decide⟩

/-- Amended claim C8: for every pair of non-empty strings that differ only
by insertion or removal of non-alphabetic characters (equivalently: whose
subsequences of alphabetic characters coincide), both classifiers agree —
in particular classify("hello123!") = classify("hello").  The invariance
fails only when one side of the pair is empty and the other is not. -/
theorem classification_invariant_nonempty (s t : String)
    (hs : s.data ≠ []) (ht : t.data ≠ [])
    (hf : s.data.filter pyIsAlpha = t.data.filter pyIsAlpha) :
    is_russian s = is_russian t ∧ is_english s = is_english t := by
  have hr1 := is_russian_filter_iff s hs
  have hr2 := is_russian_filter_iff t ht
  have he1 := is_english_filter_iff s hs
  have he2 := is_english_filter_iff t ht
  rw [hf] at hr1 he1
  have hriff : is_russian s = true ↔ is_russian t = true := by
    rw [hr1, hr2]
  have heiff : is_english s = true ↔ is_english t = true := by
    rw [he1, he2]
  constructor
  · cases ha : is_russian s <;> cases hb : is_russian t <;> simp_all
  · cases ha : is_english s <;> cases hb : is_english t <;> simp_all

/-- Witness for the amended C8 at the spec's own instance,
("hello123!", "hello"). -/
theorem classification_invariant_witness :
    is_russian "hello123!" = is_russian "hello" ∧
    is_english "hello123!" = is_english "hello" :=
  classification_invariant_nonempty "hello123!" "hello"
    (by decide) (by decide) (by decide)

/-! ## Claim C9 — presenter output -/

theorem data_join (l : List String) :
    (String.join l).data = (l.map String.data).flatten := by
  rw [String.join]
  suffices h : ∀ acc : String,
      (l.foldl (fun a b => a ++ b) acc).data =
        acc.data ++ (l.map String.data).flatten by
    simpa using h ""
  induction l with
  | nil => intro acc; simp
  | cons x xs ih =>
    intro acc
    simp only [List.foldl_cons, List.map_cons, List.flatten_cons, ih,
      String.data_append, List.append_assoc]

/-- Claim C9, confirmed: the output printed for one record is exactly the
claimed lines — one "{language_code}: {text}" line per pair of an aligned
record in insertion order, or one "txt: {text}" line for a simple record,
then "src: {source}", then one blank separator line — each terminated by
a newline. -/
theorem present_record_lines (ex : ResultRecord) :
    present_record ex =
      String.join ((claimed_lines ex).map (fun l => l ++ "\n")) := by
  apply String.ext
  cases ex with
  | simple txt src =>
    simp [present_record, print_chunks, claimed_lines, data_join,
      ResultRecord.src, String.data_append]
  | aligned pairs ru src =>
    simp [present_record, print_chunks, claimed_lines, data_join,
      ResultRecord.src, String.data_append, List.map_map, Function.comp]
    have hfun : (String.data ∘ fun p : String × String =>
          p.1 ++ ": " ++ p.2 ++ "\n") =
        (String.data ∘ (fun l => l ++ "\n") ∘ fun p : String × String =>
          p.1 ++ ": " ++ p.2) := by
      funext p
      simp [Function.comp, String.data_append]
    rw [hfun]

/-! ## Claim C10 — mutual exclusion of the classifiers -/

/-- Claim C10, confirmed: whenever a string contains at least one
alphabetic character, `is_russian` and `is_english` cannot both hold —
that character's lowered code would have to lie both within the Russian
borders (1072-1103) and within the English borders (97-122), which are
disjoint. -/
theorem russian_english_mutually_exclusive (s : String)
    (h : ∃ c ∈ s.data, pyIsAlpha c = true) :
    ¬(is_russian s = true ∧ is_english s = true) := by
  obtain ⟨c0, hc0, ha0⟩ := h
  have hs : s.data ≠ [] := List.ne_nil_of_mem hc0
  obtain ⟨c, cs, hd⟩ := List.exists_cons_of_ne_nil hs
  rintro ⟨hr, he⟩
  rw [is_russian_char_iff s c cs hd] at hr
  rw [is_english_char_iff s c cs hd] at he
  obtain ⟨hr1, _⟩ := hr c0 hc0 ha0
  obtain ⟨_, he2⟩ := he c0 hc0 ha0
  have hL : LEFT_RUS_BORDER = (1072 : Int) := by decide
  have hR : RIGHT_ENG_BORDER = (122 : Int) := by decide
  rw [hL] at hr1
  rw [hR] at he2
  omega

/-- Witness for C10 at the concrete input "дом". -/
theorem mutual_exclusion_witness :
    ¬(is_russian "дом" = true ∧ is_english "дом" = true) :=
  russian_english_mutually_exclusive "дом" (by decide)
